import Mathlib

/-!
Verification development for the rattle module (RattleSup/Rattle.c).

The C code keeps, per record, a bounded buffer of timestamped samples with
decimating insertion, and on each processing cycle computes a least-squares
slope/intersect over up to four trailing windows, deriving a rate and a
time-to-threshold estimate for each.

Shallow embedding conventions:
* `epicsFloat64` values and timestamps are modelled by exact rationals `ℚ`
  (`epicsTimeDiffInSeconds` becomes subtraction).  The NaN/infinity check on
  the raw input is modelled by the `DVal` type below.
* The buffer is modelled by the list of its initialized entries
  (`buffer[0] .. buffer[sampleCount-1]`), so `sampleCount = buffer.length`.
* Out-of-range indexing (undefined behaviour in C) yields a default sample;
  the index arithmetic itself is tracked separately by
  `slopeIntersectAccesses`.
-/

namespace Rattle

/-- A stored sample, from `struct Sample` in Rattle.c: a timestamp (seconds)
and a value. -/
structure Sample where
  time : ℚ
  value : ℚ
deriving DecidableEq

instance : Inhabited Sample := ⟨⟨0, 0⟩⟩

/-- Reading `buffer[i]`.  An index outside the initialized region
`[0, length)` is undefined behaviour in the C code; the model returns the
default sample there. -/
def bufferRead (buf : List Sample) (i : ℤ) : Sample :=
  if 0 ≤ i ∧ i < (buf.length : ℤ) then buf.getD i.toNat default else default

/-- Per-record private data, from `struct RecordData` in Rattle.c.
`buffer` holds the initialized entries, so the C `sampleCount` is
`buffer.length`. -/
structure RecordData where
  buffer : List Sample
  maximumSamples : ℕ
  decimateCount : ℕ
  decimateTotal : ℚ
deriving DecidableEq

/-- Sum of the time offsets `x_i = t_i - t0` accumulated by the loop in
`slopeIntersect` (variable `x_sum`). -/
def xSum (w : List Sample) (t0 : ℚ) : ℚ :=
  (w.map (fun s => s.time - t0)).sum

/-- Sum of the values (variable `y_sum`). -/
def ySum (w : List Sample) : ℚ :=
  (w.map (fun s => s.value)).sum

/-- Sum of the squared offsets (variable `xx_sum`). -/
def xxSum (w : List Sample) (t0 : ℚ) : ℚ :=
  (w.map (fun s => (s.time - t0) * (s.time - t0))).sum

/-- Sum of offset times value (variable `xy_sum`). -/
def xySum (w : List Sample) (t0 : ℚ) : ℚ :=
  (w.map (fun s => (s.time - t0) * s.value)).sum

/-- The denominator `delta = actual_size * xx_sum - x_sum * x_sum`;
`actual_size` is the number of loop iterations, i.e. the window length. -/
def olsDelta (w : List Sample) (t0 : ℚ) : ℚ :=
  (w.length : ℚ) * xxSum w t0 - xSum w t0 * xSum w t0

/-- The computed slope `((actual_size * xy_sum) - (x_sum * y_sum)) / delta`. -/
def olsSlope (w : List Sample) (t0 : ℚ) : ℚ :=
  ((w.length : ℚ) * xySum w t0 - xSum w t0 * ySum w) / olsDelta w t0

/-- The computed intersect `((y_sum * xx_sum) - (x_sum * xy_sum)) / delta`. -/
def olsIntersect (w : List Sample) (t0 : ℚ) : ℚ :=
  (ySum w * xxSum w t0 - xSum w t0 * xySum w t0) / olsDelta w t0

/-- The slice of the buffer visited by the summation loop of
`slopeIntersect`: indices `firstSlot .. lastSlot` where
`firstSlot = max (sampleCount - number) 0` and `lastSlot = sampleCount - 1`. -/
def windowOf (d : RecordData) (number : ℤ) : List Sample :=
  d.buffer.drop (max ((d.buffer.length : ℤ) - number) 0).toNat

/-- The reference time `t0 = buffer[lastSlot].time`: all offsets are taken
relative to the newest stored sample's timestamp. -/
def t0Of (d : RecordData) : ℚ :=
  (bufferRead d.buffer ((d.buffer.length : ℤ) - 1)).time

/-- Least-squares fit, from `slopeIntersect` in Rattle.c: returns
`(slope, intersect)`.  Mirrors the three branches of the C function:
`number < 1` gives `(0, 0)`; `number < 2` gives `0` and the newest stored
value; otherwise ordinary least squares over the trailing window with
offsets relative to the newest sample's timestamp. -/
def slopeIntersect (d : RecordData) (number : ℤ) : ℚ × ℚ :=
  if number < 1 then (0, 0)
  else if number < 2 then
    (0, (bufferRead d.buffer ((d.buffer.length : ℤ) - 1)).value)
  else
    (olsSlope (windowOf d number) (t0Of d),
     olsIntersect (windowOf d number) (t0Of d))

/-- The sequence of buffer indices read by `slopeIntersect`, as a function of
`sampleCount` and `number`: nothing for `number < 1`; the single read
`buffer[lastSlot].value` for `number == 1`; and for `number >= 2` the read
of `t0 = buffer[lastSlot].time` followed by the loop indices
`firstSlot .. lastSlot`. -/
def slopeIntersectAccesses (sampleCount number : ℤ) : List ℤ :=
  let firstSlot : ℤ := max (sampleCount - number) 0
  let lastSlot : ℤ := sampleCount - 1
  if number < 1 then []
  else if number < 2 then [lastSlot]
  else lastSlot :: (List.range (lastSlot + 1 - firstSlot).toNat).map
    (fun (k : ℕ) => firstSlot + (k : ℤ))

/-- The raw input value INPA: either an ordinary (finite) double, modelled
by a rational, or a NaN/infinite double, which the C code detects with
`isNanOrInfinite` before any arithmetic. -/
inductive DVal where
  | nanOrInf : DVal
  | finite : ℚ → DVal
deriving DecidableEq

/-- Model of `isNanOrInfinite` in Rattle.c. -/
def isNanOrInfinite : DVal → Bool
  | DVal.nanOrInf => true
  | DVal.finite _ => false

/-- `INVALID_ALARM` severity from EPICS base (alarm.h); the code skips the
cycle when the supplied severity is at or above this value. -/
def epicsSevInvalid : ℤ := 3

/-- The `ZERO2ONE` macro on integers: `x <= 0 ? 1 : x`. -/
def zero2oneInt (x : ℤ) : ℤ := if x ≤ 0 then 1 else x

/-- The `ZERO2ONE` macro on doubles. -/
def zero2oneQ (x : ℚ) : ℚ := if x ≤ 0 then 1 else x

/-- The clamp `LIMIT (n, 2, maximumSamples) = MAX (2, MIN (n, max))` applied
to each requested window size in `RattleProcess`. -/
def clampNumber (d : RecordData) (x : ℤ) : ℤ :=
  max 2 (min x (d.maximumSamples : ℤ))

/-- The per-cycle inputs read by `RattleProcess` (INPA..INPT). -/
structure Config where
  severity : ℤ
  value : DVal
  time : ℚ
  numbers : Fin 4 → ℤ
  thresholds : Fin 4 → ℚ
  decimateFactorIn : ℤ
  resetField : ℤ
  rateScaleIn : ℚ
  timeScaleIn : ℚ

/-- The outputs written by a completed cycle (VALA..VALI). -/
structure Outputs where
  vala : ℤ
  rate : Fin 4 → ℚ
  eta : Fin 4 → ℚ

/-- The reset branch of `RattleProcess` (sampleCount and decimation state
cleared, capacity untouched). -/
def resetStore (d : RecordData) : RecordData :=
  { d with buffer := [], decimateCount := 0, decimateTotal := 0 }

/-- The store as `RattleInit` leaves it: empty buffer of the given capacity,
decimation state zero. -/
def freshStore (cap : ℕ) : RecordData :=
  { buffer := [], maximumSamples := cap, decimateCount := 0, decimateTotal := 0 }

/-- Insertion of a decimated measurement, from the tail of `RattleProcess`:
append while below capacity, else shift every entry one slot toward the
front (dropping the oldest) and write the measurement into the last slot. -/
def insertMeasurement (d : RecordData) (m : Sample) : RecordData :=
  if d.buffer.length < d.maximumSamples then
    { d with buffer := d.buffer ++ [m] }
  else
    { d with buffer := d.buffer.tail ++ [m] }

/-- The decimation/ingest step of `RattleProcess`: add the raw value to the
running total while `decimateCount < decimateFactor`; once
`decimateCount >= decimateFactor`, build the measurement (raw value when the
factor is 1, else `decimateTotal / decimateFactor`), clear the decimation
state and insert. -/
def storeCycle (d : RecordData) (decimateFactor : ℤ) (time value : ℚ) : RecordData :=
  let d2 := if (d.decimateCount : ℤ) < decimateFactor then
      { d with decimateCount := d.decimateCount + 1,
               decimateTotal := d.decimateTotal + value }
    else d
  if decimateFactor ≤ (d2.decimateCount : ℤ) then
    insertMeasurement
      { d2 with decimateCount := 0, decimateTotal := 0 }
      ⟨time, if decimateFactor = 1 then value else d2.decimateTotal / (decimateFactor : ℚ)⟩
  else d2

/-- The full store update of one successful cycle: optional reset followed by
the decimation/ingest step, with the `ZERO2ONE`-corrected factor. -/
def updatedStore (d : RecordData) (cfg : Config) (value : ℚ) : RecordData :=
  storeCycle (if cfg.resetField = 1 then resetStore d else d)
    (zero2oneInt cfg.decimateFactorIn) cfg.time value

/-- One processing cycle, from `RattleProcess` in Rattle.c.  Returns the
status, the updated record data, and `some` outputs when the output fields
were recomputed (`none` models leaving the previously written fields
untouched).  The severity skip precedes the NaN/infinity rejection, which
precedes any state change. -/
def RattleProcess (d : RecordData) (cfg : Config) : ℤ × RecordData × Option Outputs :=
  if epicsSevInvalid ≤ cfg.severity then (0, d, none)
  else
    match cfg.value with
    | DVal.nanOrInf => (-1, d, none)
    | DVal.finite value =>
      let d3 := updatedStore d cfg value
      let fit : Fin 4 → ℚ × ℚ := fun j => slopeIntersect d3 (clampNumber d (cfg.numbers j))
      (0, d3, some
        { vala := (d3.buffer.length : ℤ)
          rate := fun j => (fit j).1 * zero2oneQ cfg.rateScaleIn
          eta := fun j =>
            ((cfg.thresholds j - (fit j).2) / (fit j).1) / zero2oneQ cfg.timeScaleIn })

/-- Iterated processing: the store after a sequence of cycles. -/
def runCycles (d : RecordData) (cfgs : List Config) : RecordData :=
  cfgs.foldl (fun s c => (RattleProcess s c).2.1) d

/-! Concrete fixtures used by witnesses and counterexamples. -/

/-- A store holding the single sample (time 0, value 5). -/
def oneSampleStore : RecordData := ⟨[⟨0, 5⟩], 10, 0, 0⟩

/-- Three collinear samples: value = 2 * time + 2, so slope 2 and value 6 at
the newest timestamp 2. -/
def linStore : RecordData := ⟨[⟨0, 2⟩, ⟨1, 4⟩, ⟨2, 6⟩], 10, 0, 0⟩

/-- A full store of capacity 2. -/
def fullStore : RecordData := ⟨[⟨0, 1⟩, ⟨1, 2⟩], 2, 0, 0⟩

/-- A store with pending decimation state: one raw value (total 5) already
accumulated. -/
def pendingStore : RecordData := ⟨[], 10, 1, 5⟩

/-- A store with two raw values (total 9) already accumulated. -/
def pendingStore2 : RecordData := ⟨[], 10, 2, 9⟩

/-- A benign cycle configuration: good severity, finite value 7 at time 3. -/
def baseCfg : Config :=
  { severity := 0, value := DVal.finite 7, time := 3,
    numbers := fun _ => 5, thresholds := fun _ => 100,
    decimateFactorIn := 1, resetField := 0, rateScaleIn := 1, timeScaleIn := 1 }

/-- Invalid-severity variant of `baseCfg`. -/
def sevCfg : Config := { baseCfg with severity := 3 }

/-- NaN-input variant of `baseCfg`. -/
def nanCfg : Config := { baseCfg with value := DVal.nanOrInf }

/-- NaN input together with invalid severity. -/
def nanSevCfg : Config := { baseCfg with severity := 3, value := DVal.nanOrInf }

/-! Claim C6: invalid severity skips the whole cycle. -/

/-- Claim C6: when the supplied severity is at or above the invalid
threshold, `RattleProcess` returns status 0, leaves the record data
(buffer, decimation state, capacity) untouched, and does not recompute the
outputs; in particular neither the requested reset nor the ingest happens. -/
theorem severity_skip_is_noop (d : RecordData) (cfg : Config)
    (h : epicsSevInvalid ≤ cfg.severity) :
    RattleProcess d cfg = (0, d, none) := by
  simp [RattleProcess, if_pos h]

/-- Witness for C6 at a concrete store and a severity-3 cycle that also
requests a reset. -/
theorem severity_skip_is_noop_witness :
    epicsSevInvalid ≤ ({ sevCfg with resetField := 1 } : Config).severity ∧
    RattleProcess oneSampleStore { sevCfg with resetField := 1 } =
      (0, oneSampleStore, none) :=
  ⟨by decide, severity_skip_is_noop oneSampleStore _ (by decide)⟩

/-! Claim C3: rejection of NaN/infinite inputs.  The claim as frozen
quantifies over every cycle whose input value is NaN/infinite, but the
severity check comes first in the code: a NaN input arriving with invalid
severity is skipped with status 0, not rejected with a negative status. -/

/-- Counterexample for C3 as stated: a cycle whose input value is
NaN/infinite but whose severity is at the invalid threshold returns status
0, which is not negative. -/
theorem nan_with_invalid_severity_status_zero :
    nanSevCfg.value = DVal.nanOrInf ∧
    (RattleProcess oneSampleStore nanSevCfg).1 = 0 ∧
    ¬(RattleProcess oneSampleStore nanSevCfg).1 < 0 := by decide

/-- Claim C3 (amended): when the severity passes the invalid check and the
input value is NaN or infinite, `RattleProcess` returns the negative status
-1, leaves the Sample Store's length, contents and decimation state
unchanged, and does not recompute the outputs. -/
theorem nan_input_rejected (d : RecordData) (cfg : Config)
    (hsev : cfg.severity < epicsSevInvalid) (hval : cfg.value = DVal.nanOrInf) :
    RattleProcess d cfg = (-1, d, none) := by
  simp [RattleProcess, if_neg (not_le.mpr hsev), hval]

/-- Witness for the amended C3 at a concrete store and NaN cycle. -/
theorem nan_input_rejected_witness :
    nanCfg.severity < epicsSevInvalid ∧ nanCfg.value = DVal.nanOrInf ∧
    RattleProcess oneSampleStore nanCfg = (-1, oneSampleStore, none) :=
  ⟨by decide, by decide, nan_input_rejected oneSampleStore nanCfg (by decide) rfl⟩

/-! Claim C8: reset refines a fresh store. -/

/-- Claim C8: resetting keeps the capacity, is idempotent, and yields a
store literally equal to a freshly initialized store of the same capacity,
so any subsequent cycle sequence gives the same length, the same windows
and the same fit results as on the fresh store. -/
theorem reset_refines_fresh (d : RecordData) :
    (resetStore d).maximumSamples = d.maximumSamples ∧
    resetStore (resetStore d) = resetStore d ∧
    resetStore d = freshStore d.maximumSamples ∧
    ∀ cfgs : List Config,
      runCycles (resetStore d) cfgs = runCycles (freshStore d.maximumSamples) cfgs ∧
      (runCycles (resetStore d) cfgs).buffer.length =
        (runCycles (freshStore d.maximumSamples) cfgs).buffer.length ∧
      ∀ n : ℤ,
        windowOf (runCycles (resetStore d) cfgs) n =
          windowOf (runCycles (freshStore d.maximumSamples) cfgs) n ∧
        slopeIntersect (runCycles (resetStore d) cfgs) n =
          slopeIntersect (runCycles (freshStore d.maximumSamples) cfgs) n :=
  ⟨rfl, rfl, rfl, fun _ => ⟨rfl, rfl, fun _ => ⟨rfl, rfl⟩⟩⟩

/-! Claim C10: behaviour when the decimation factor drops below the pending
count.  As frozen the claim asserts the emitted value is always the stale
running sum divided by the new factor; the code special-cases factor 1,
where the emitted value is the new raw value itself. -/

/-- Counterexample for C10 as stated: pending count 1 with stale total 5,
factor decreased to 1, new raw value 7 at time 10.  The emitted measurement
holds the raw value 7, not the stale sum 5 divided by the new factor 1. -/
theorem factor_one_pending_uses_raw_value :
    (1 : ℤ) ≤ (pendingStore.decimateCount : ℤ) ∧
    (storeCycle pendingStore 1 10 7).buffer = [⟨10, 7⟩] ∧
    (7 : ℚ) ≠ pendingStore.decimateTotal / (1 : ℚ) := by
  refine ⟨by decide, by decide, ?_⟩
  show (7 : ℚ) ≠ (5 : ℚ) / 1
  norm_num

/-- Claim C10 (amended): if the decimation factor `f` supplied in a cycle is
at most the pending decimation count, the new raw value is not added to the
running sum, the decimation state is cleared, and a measurement timestamped
with the new sample's time is inserted; for `2 ≤ f` its value is the stale
running sum divided by `f` (a mean over a different group size, dropping the
new raw value), while for `f = 1` it is the new raw value itself and the
stale sum is discarded. -/
theorem decreased_factor_emits_stale_mean (d : RecordData) (f : ℤ) (t v : ℚ)
    (hf : f ≤ (d.decimateCount : ℤ)) :
    (2 ≤ f → storeCycle d f t v =
      insertMeasurement { d with decimateCount := 0, decimateTotal := 0 }
        ⟨t, d.decimateTotal / (f : ℚ)⟩) ∧
    (f = 1 → storeCycle d f t v =
      insertMeasurement { d with decimateCount := 0, decimateTotal := 0 } ⟨t, v⟩) := by
  have hnot : ¬((d.decimateCount : ℤ) < f) := not_lt.mpr hf
  constructor
  · intro h2
    have hne : f ≠ 1 := by omega
    simp only [storeCycle, if_neg hnot, if_pos hf, if_neg hne]
  · intro h1
    subst h1
    simp only [storeCycle, if_neg hnot, if_pos hf, if_pos rfl, if_true]

/-- Witness for the amended C10: pending count 2 with stale total 9, factor
decreased to 2, new value 7 at time 9. -/
theorem decreased_factor_emits_stale_mean_witness :
    (2 : ℤ) ≤ (pendingStore2.decimateCount : ℤ) ∧
    ((2 ≤ (2 : ℤ) → storeCycle pendingStore2 2 9 7 =
      insertMeasurement { pendingStore2 with decimateCount := 0, decimateTotal := 0 }
        ⟨9, pendingStore2.decimateTotal / ((2 : ℤ) : ℚ)⟩) ∧
     ((2 : ℤ) = 1 → storeCycle pendingStore2 2 9 7 =
      insertMeasurement { pendingStore2 with decimateCount := 0, decimateTotal := 0 }
        ⟨9, 7⟩)) :=
  ⟨by decide, decreased_factor_emits_stale_mean pendingStore2 2 9 7 (by decide)⟩

/-! Claim C9: bounds of the buffer indices read by `slopeIntersect`.  As
frozen the claim asserts that for `number >= 2` all reads stay in bounds
even on an empty store; in fact the read of `t0 = buffer[lastSlot].time`
happens before the loop and hits index -1 there. -/

/-- Counterexample for C9 as stated: with an empty store (`sampleCount = 0`)
and `number = 2`, `slopeIntersect` reads index -1 (the `t0` timestamp
read), which is out of bounds. -/
theorem empty_store_ols_reads_out_of_bounds :
    (-1 : ℤ) ∈ slopeIntersectAccesses 0 2 ∧
    ¬(0 ≤ (-1 : ℤ) ∧ (-1 : ℤ) < 0) := by decide

/-- Claim C9 (amended): every buffer index read by `slopeIntersect` lies in
the initialized region `[0, sampleCount)` exactly when `number < 1` (no
reads at all) or the store is nonempty; for `sampleCount = 0` both the
`number == 1` value read and the `number >= 2` `t0` read hit index -1,
while the summation loop itself never reads out of bounds. -/
theorem accesses_in_bounds_iff (sampleCount number : ℤ) :
    (∀ i ∈ slopeIntersectAccesses sampleCount number, 0 ≤ i ∧ i < sampleCount) ↔
    (number < 1 ∨ 1 ≤ sampleCount) := by
  unfold slopeIntersectAccesses
  split_ifs with h1 h2
  · simp [h1]
  · simp only [List.mem_singleton]
    constructor
    · intro h
      exact Or.inr (by have := h _ rfl; omega)
    · intro h i hi
      subst hi
      omega
  · simp only [List.mem_cons, List.mem_map, List.mem_range]
    constructor
    · intro h
      exact Or.inr (by have := h _ (Or.inl rfl); omega)
    · intro h i hi
      have hsc : 1 ≤ sampleCount := by rcases h with h | h <;> omega
      rcases hi with rfl | ⟨j, hj, rfl⟩
      · omega
      · have hfs0 : (0 : ℤ) ≤ max (sampleCount - number) 0 := le_max_right _ _
        have hfs : max (sampleCount - number) 0 ≤ sampleCount :=
          max_le (by omega) (by omega)
        generalize hF : max (sampleCount - number) 0 = F at hfs0 hfs hj ⊢
        omega

/-- Witness for the amended C9: with 3 stored samples and `number = 2`
every read is in bounds. -/
theorem accesses_in_bounds_iff_witness :
    ∀ i ∈ slopeIntersectAccesses 3 2, 0 ≤ i ∧ i < 3 :=
  (accesses_in_bounds_iff 3 2).mpr (Or.inr (by norm_num))

/-! Claim C4: the store never exceeds its capacity, and inserting into a
full store evicts exactly the oldest entry. -/

lemma insertMeasurement_maximumSamples (d : RecordData) (m : Sample) :
    (insertMeasurement d m).maximumSamples = d.maximumSamples := by
  unfold insertMeasurement
  split <;> rfl

lemma insertMeasurement_length_le (d : RecordData) (m : Sample)
    (hcap : 1 ≤ d.maximumSamples) (hlen : d.buffer.length ≤ d.maximumSamples) :
    (insertMeasurement d m).buffer.length ≤ d.maximumSamples := by
  unfold insertMeasurement
  split_ifs with h
  · show (d.buffer ++ [m]).length ≤ d.maximumSamples
    simp only [List.length_append, List.length_singleton]
    omega
  · show (d.buffer.tail ++ [m]).length ≤ d.maximumSamples
    simp only [List.length_append, List.length_singleton, List.length_tail]
    omega

lemma storeCycle_maximumSamples (d : RecordData) (f : ℤ) (t v : ℚ) :
    (storeCycle d f t v).maximumSamples = d.maximumSamples := by
  simp only [storeCycle]
  split_ifs <;> simp [insertMeasurement_maximumSamples]

lemma storeCycle_length_le (d : RecordData) (f : ℤ) (t v : ℚ)
    (hcap : 1 ≤ d.maximumSamples) (hlen : d.buffer.length ≤ d.maximumSamples) :
    (storeCycle d f t v).buffer.length ≤ d.maximumSamples := by
  simp only [storeCycle]
  split_ifs <;>
    first
      | exact insertMeasurement_length_le _ _ hcap hlen
      | exact hlen

lemma updatedStore_maximumSamples (d : RecordData) (cfg : Config) (v : ℚ) :
    (updatedStore d cfg v).maximumSamples = d.maximumSamples := by
  unfold updatedStore
  rw [storeCycle_maximumSamples]
  split_ifs <;> rfl

lemma updatedStore_length_le (d : RecordData) (cfg : Config) (v : ℚ)
    (hcap : 1 ≤ d.maximumSamples) (hlen : d.buffer.length ≤ d.maximumSamples) :
    (updatedStore d cfg v).buffer.length ≤ d.maximumSamples := by
  unfold updatedStore
  split_ifs
  · exact storeCycle_length_le _ _ _ _ hcap (by show (0 : ℕ) ≤ _; omega)
  · exact storeCycle_length_le _ _ _ _ hcap hlen

lemma process_store_cases (d : RecordData) (cfg : Config) :
    (RattleProcess d cfg).2.1 = d ∨
    ∃ v : ℚ, (RattleProcess d cfg).2.1 = updatedStore d cfg v := by
  unfold RattleProcess
  split_ifs with h
  · exact Or.inl rfl
  · cases hcv : cfg.value with
    | nanOrInf => exact Or.inl rfl
    | finite v => exact Or.inr ⟨v, rfl⟩

lemma process_preserves (d : RecordData) (cfg : Config)
    (hcap : 1 ≤ d.maximumSamples) (hlen : d.buffer.length ≤ d.maximumSamples) :
    (RattleProcess d cfg).2.1.maximumSamples = d.maximumSamples ∧
    (RattleProcess d cfg).2.1.buffer.length ≤ d.maximumSamples := by
  rcases process_store_cases d cfg with h | ⟨v, h⟩
  · rw [h]; exact ⟨rfl, hlen⟩
  · rw [h]
    exact ⟨updatedStore_maximumSamples d cfg v, updatedStore_length_le d cfg v hcap hlen⟩

lemma runCycles_preserves : ∀ (cfgs : List Config) (d : RecordData),
    1 ≤ d.maximumSamples → d.buffer.length ≤ d.maximumSamples →
    (runCycles d cfgs).maximumSamples = d.maximumSamples ∧
    (runCycles d cfgs).buffer.length ≤ d.maximumSamples := by
  intro cfgs
  induction cfgs with
  | nil => exact fun d _ hlen => ⟨rfl, hlen⟩
  | cons c cs ih =>
    intro d hcap hlen
    have h1 := process_preserves d c hcap hlen
    have hc2 : 1 ≤ ((RattleProcess d c).2.1).maximumSamples := by rw [h1.1]; exact hcap
    have hl2 : ((RattleProcess d c).2.1).buffer.length ≤
        ((RattleProcess d c).2.1).maximumSamples := by rw [h1.1]; exact h1.2
    have h2 := ih ((RattleProcess d c).2.1) hc2 hl2
    have hstep : runCycles d (c :: cs) = runCycles ((RattleProcess d c).2.1) cs := rfl
    constructor
    · rw [hstep, h2.1, h1.1]
    · rw [hstep]
      calc (runCycles ((RattleProcess d c).2.1) cs).buffer.length
          ≤ ((RattleProcess d c).2.1).maximumSamples := h2.2
        _ = d.maximumSamples := h1.1

/-- Claim C4: for every sequence of cycles the store's length never exceeds
the fixed capacity, and inserting a decimated measurement into a full store
drops exactly the oldest entry, keeps the relative order of the remaining
entries, puts the new measurement in the last slot, and leaves the length
at capacity. -/
theorem store_bounded_and_eviction (d : RecordData)
    (hcap : 1 ≤ d.maximumSamples) (hlen : d.buffer.length ≤ d.maximumSamples) :
    (∀ cfgs : List Config, (runCycles d cfgs).buffer.length ≤ d.maximumSamples) ∧
    (∀ (m s : Sample) (rest : List Sample), d.buffer = s :: rest →
      d.buffer.length = d.maximumSamples →
      (insertMeasurement d m).buffer = rest ++ [m] ∧
      (insertMeasurement d m).buffer.length = d.maximumSamples) := by
  constructor
  · exact fun cfgs => (runCycles_preserves cfgs d hcap hlen).2
  · intro m s rest hbuf hfull
    have hnot : ¬ d.buffer.length < d.maximumSamples := by omega
    unfold insertMeasurement
    rw [if_neg hnot]
    constructor
    · show d.buffer.tail ++ [m] = rest ++ [m]
      rw [hbuf]
      rfl
    · show (d.buffer.tail ++ [m]).length = d.maximumSamples
      rw [hbuf] at hfull ⊢
      simp only [List.tail_cons, List.length_append, List.length_cons,
        List.length_nil] at hfull ⊢
      omega

/-- Witness for C4 at a full store of capacity 2. -/
theorem store_bounded_and_eviction_witness :
    1 ≤ fullStore.maximumSamples ∧
    fullStore.buffer.length ≤ fullStore.maximumSamples ∧
    ((∀ cfgs : List Config,
        (runCycles fullStore cfgs).buffer.length ≤ fullStore.maximumSamples) ∧
     (∀ (m s : Sample) (rest : List Sample), fullStore.buffer = s :: rest →
        fullStore.buffer.length = fullStore.maximumSamples →
        (insertMeasurement fullStore m).buffer = rest ++ [m] ∧
        (insertMeasurement fullStore m).buffer.length = fullStore.maximumSamples)) :=
  ⟨by decide, by decide, store_bounded_and_eviction fullStore (by decide) (by decide)⟩

/-! Claim C5: decimation groups of size `k`. -/

lemma storeCycle_accumulate : ∀ (pairs : List (ℚ × ℚ)) (d : RecordData) (k : ℤ),
    (d.decimateCount : ℤ) + pairs.length < k →
    pairs.foldl (fun s p => storeCycle s k p.1 p.2) d =
      { d with decimateCount := d.decimateCount + pairs.length,
               decimateTotal := d.decimateTotal + (pairs.map Prod.snd).sum } := by
  intro pairs
  induction pairs with
  | nil => intro d k h; simp
  | cons p ps ih =>
    intro d k h
    simp only [List.length_cons] at h
    have hlt : (d.decimateCount : ℤ) < k := by push_cast at h ⊢; omega
    have hstep : storeCycle d k p.1 p.2 =
        { d with decimateCount := d.decimateCount + 1,
                 decimateTotal := d.decimateTotal + p.2 } := by
      simp only [storeCycle, if_pos hlt]
      rw [if_neg (by push_cast at h ⊢; omega)]
    rw [List.foldl_cons, hstep,
      ih _ _ (by show ((d.decimateCount + 1 : ℕ) : ℤ) + _ < k; push_cast at h ⊢; omega)]
    simp only [List.length_cons, List.map_cons, List.sum_cons, RecordData.mk.injEq]
    exact ⟨trivial, trivial, by omega, by ring⟩

lemma storeCycle_fires (d : RecordData) (k : ℤ) (t v : ℚ)
    (h1 : (d.decimateCount : ℤ) + 1 = k) :
    storeCycle d k t v =
      insertMeasurement { d with decimateCount := 0, decimateTotal := 0 }
        ⟨t, if k = 1 then v else (d.decimateTotal + v) / (k : ℚ)⟩ := by
  have hlt : (d.decimateCount : ℤ) < k := by omega
  simp only [storeCycle, if_pos hlt]
  rw [if_pos (by push_cast; omega)]

/-- Claim C5: starting from a clean decimation state, feeding fewer than
`k` raw samples with factor `k` only accumulates (the buffer is unchanged
and the pending count and running sum track the fed samples), while feeding
exactly `k` raw samples inserts exactly one measurement whose value is the
arithmetic mean of the `k` raw values (for `k = 1` this is the single raw
value itself) and whose timestamp is the last raw sample's, with the
decimation state reset to zero. -/
theorem decimation_group_mean (k : ℤ) (d : RecordData) (pairs : List (ℚ × ℚ))
    (hk : 1 ≤ k) (hc : d.decimateCount = 0) (ht : d.decimateTotal = 0) :
    (((pairs.length : ℤ) < k →
      pairs.foldl (fun s p => storeCycle s k p.1 p.2) d =
        { d with decimateCount := pairs.length,
                 decimateTotal := (pairs.map Prod.snd).sum }) ∧
     ((pairs.length : ℤ) = k → ∀ tl vl : ℚ, pairs.getLast? = some (tl, vl) →
      pairs.foldl (fun s p => storeCycle s k p.1 p.2) d =
        insertMeasurement { d with decimateCount := 0, decimateTotal := 0 }
          ⟨tl, (pairs.map Prod.snd).sum / (k : ℚ)⟩)) := by
  constructor
  · intro hlen
    rw [storeCycle_accumulate pairs d k (by rw [hc]; push_cast; omega)]
    rw [hc, ht]
    simp
  · intro hlen tl vl hlast
    have hne : pairs ≠ [] := by
      intro hnil
      rw [hnil] at hlen
      simp at hlen
      omega
    have hlast_eq : pairs.getLast hne = (tl, vl) := by
      rw [List.getLast?_eq_getLast pairs hne] at hlast
      exact Option.some.inj hlast
    have hsplit : pairs.dropLast ++ [(tl, vl)] = pairs := by
      rw [← hlast_eq]
      exact List.dropLast_append_getLast hne
    have hdll : pairs.dropLast.length = pairs.length - 1 := List.length_dropLast pairs
    have hlen1 : 1 ≤ pairs.length := List.length_pos.mpr hne
    have hsum : (pairs.map Prod.snd).sum = (pairs.dropLast.map Prod.snd).sum + vl := by
      conv_lhs => rw [← hsplit]
      simp [List.map_append]
    conv_lhs => rw [← hsplit]
    rw [List.foldl_append, List.foldl_cons, List.foldl_nil]
    rw [storeCycle_accumulate pairs.dropLast d k (by rw [hc, hdll]; omega)]
    rw [storeCycle_fires _ k tl vl (by
      show ((d.decimateCount + pairs.dropLast.length : ℕ) : ℤ) + 1 = k
      rw [hc, hdll]
      omega)]
    congr 1
    simp only [Sample.mk.injEq]
    refine ⟨trivial, ?_⟩
    rw [hsum, ht]
    split_ifs with h1
    · subst h1
      have hdl0 : pairs.dropLast.length = 0 := by omega
      rw [List.eq_nil_of_length_eq_zero hdl0]
      simp
    · rw [zero_add]

/-- The raw (time, value) pairs fed in the C5 witness. -/
def wPairs : List (ℚ × ℚ) := [(0, 1), (1, 3)]

/-- The fresh store of capacity 10 used by the C5 witness. -/
def wStart : RecordData := freshStore 10

/-- Witness for C5 with factor 2 and the raw pairs (time 0, value 1),
(time 1, value 3) fed into a fresh store of capacity 10. -/
theorem decimation_group_mean_witness :
    (1 : ℤ) ≤ 2 ∧ wStart.decimateCount = 0 ∧ wStart.decimateTotal = 0 ∧
    (((wPairs.length : ℤ) < 2 →
      wPairs.foldl (fun s p => storeCycle s 2 p.1 p.2) wStart =
        { wStart with decimateCount := wPairs.length,
                      decimateTotal := (wPairs.map Prod.snd).sum }) ∧
     ((wPairs.length : ℤ) = 2 → ∀ tl vl : ℚ, wPairs.getLast? = some (tl, vl) →
      wPairs.foldl (fun s p => storeCycle s 2 p.1 p.2) wStart =
        insertMeasurement { wStart with decimateCount := 0, decimateTotal := 0 }
          ⟨tl, (wPairs.map Prod.snd).sum / ((2 : ℤ) : ℚ)⟩)) :=
  ⟨by norm_num, rfl, rfl,
    decimation_group_mean 2 wStart wPairs (by norm_num) rfl rfl⟩

/-! Claim C2: the small-count behaviour of the fit.  The C function branches
on the requested window size `number`, not on the actual sample count
`min number sampleCount`: with one stored sample and `number >= 2` the
least-squares path runs on a single point, so `delta = 0` and the result is
a 0/0 artifact (NaN in C) instead of the spec's (0, sample value). -/

lemma bufferRead_getLast (buf : List Sample) (h : buf ≠ []) :
    bufferRead buf ((buf.length : ℤ) - 1) = buf.getLast h := by
  have hlen : 1 ≤ buf.length := List.length_pos.mpr h
  unfold bufferRead
  rw [if_pos (by constructor <;> omega)]
  have htn : ((buf.length : ℤ) - 1).toNat = buf.length - 1 := by omega
  rw [htn]
  rw [List.getD_eq_getElem buf default (by omega)]
  rw [List.getLast_eq_getElem]

/-- Counterexample for C2 as stated: a store holding the single sample
(time 0, value 5) and requested window size 2, so that the count
`min 2 sampleCount` is 1; the fit does not return (0, 5) (the C code
produces NaN/NaN here, the exact-arithmetic model the 0/0 artifact
(0, 0)). -/
theorem fit_count_one_mismatch :
    min (2 : ℤ) ((oneSampleStore.buffer.length : ℤ)) = 1 ∧
    slopeIntersect oneSampleStore 2 ≠ (0, 5) := by
  constructor
  · norm_num [oneSampleStore]
  · norm_num [slopeIntersect, oneSampleStore, windowOf, t0Of, bufferRead,
      olsSlope, olsIntersect, olsDelta, xSum, ySum, xxSum, xySum, Prod.ext_iff]

/-- Claim C2 (amended): the fit branches on the requested window size `n`,
not on the count: for `n < 1` it returns (0, 0); for `n = 1` on a nonempty
store it returns 0 and the newest stored sample's value; for `n >= 2` it
always takes the least-squares path, and with at most one stored sample
that path's denominator `delta` is 0, so the result is the degenerate 0/0
quotient pair rather than the spec's (0, 0) or (0, sample value). -/
theorem fit_small_window_branches (d : RecordData) (n : ℤ) :
    (n < 1 → slopeIntersect d n = (0, 0)) ∧
    (n = 1 → ∀ s : Sample, d.buffer.getLast? = some s →
      slopeIntersect d n = (0, s.value)) ∧
    (2 ≤ n → d.buffer.length ≤ 1 →
      olsDelta (windowOf d n) (t0Of d) = 0 ∧
      slopeIntersect d n =
        (olsSlope (windowOf d n) (t0Of d), olsIntersect (windowOf d n) (t0Of d))) := by
  refine ⟨?_, ?_, ?_⟩
  · intro h
    simp [slopeIntersect, if_pos h]
  · intro h s hsome
    subst h
    have hne : d.buffer ≠ [] := by
      intro hnil
      rw [hnil] at hsome
      simp at hsome
    have hlast : d.buffer.getLast hne = s := by
      rw [List.getLast?_eq_getLast _ hne] at hsome
      exact Option.some.inj hsome
    have h1 : ¬ (1 : ℤ) < 1 := by norm_num
    have h2 : (1 : ℤ) < 2 := by norm_num
    simp only [slopeIntersect, if_neg h1, if_pos h2]
    rw [bufferRead_getLast d.buffer hne, hlast]
  · intro hn hlen
    have h1 : ¬ n < 1 := by omega
    have h2 : ¬ n < 2 := by omega
    refine ⟨?_, by simp only [slopeIntersect, if_neg h1, if_neg h2]⟩
    rcases Nat.le_one_iff_eq_zero_or_eq_one.mp hlen with h0 | hone
    · have hnil : d.buffer = [] := List.length_eq_zero.mp h0
      simp [windowOf, hnil, olsDelta, xSum, xxSum]
    · obtain ⟨s, hs⟩ := List.length_eq_one.mp hone
      have hmax : (max ((1 : ℤ) - n) 0).toNat = 0 := by omega
      simp [windowOf, hs, hmax, t0Of, bufferRead, olsDelta, xSum, xxSum]

/-- Witness for the amended C2 at the one-sample store with `n = 1`. -/
theorem fit_small_window_branches_witness :
    ((1 : ℤ) < 1 → slopeIntersect oneSampleStore 1 = (0, 0)) ∧
    ((1 : ℤ) = 1 → ∀ s : Sample, oneSampleStore.buffer.getLast? = some s →
      slopeIntersect oneSampleStore 1 = (0, s.value)) ∧
    (2 ≤ (1 : ℤ) → oneSampleStore.buffer.length ≤ 1 →
      olsDelta (windowOf oneSampleStore 1) (t0Of oneSampleStore) = 0 ∧
      slopeIntersect oneSampleStore 1 =
        (olsSlope (windowOf oneSampleStore 1) (t0Of oneSampleStore),
         olsIntersect (windowOf oneSampleStore 1) (t0Of oneSampleStore))) :=
  fit_small_window_branches oneSampleStore 1

/-! Claim C7: output scaling formulas of a successful cycle. -/

/-- Claim C7: in a successful cycle (valid severity, finite input) the
outputs are recomputed, and for each of the 4 slots the emitted rate is
`slope * rateScaleFactor` and the emitted eta is
`((threshold - intercept) / slope) / timeScaleFactor`, where slope and
intercept come from the fit over the updated store with the clamped window
size, the scale factors are the configured values run through `ZERO2ONE`
(replaced by 1 when <= 0), and the store update uses the `ZERO2ONE`-
corrected decimation factor. -/
theorem outputs_formula (d : RecordData) (cfg : Config) (v : ℚ)
    (hsev : cfg.severity < epicsSevInvalid) (hval : cfg.value = DVal.finite v) :
    ∃ o : Outputs, (RattleProcess d cfg).2.2 = some o ∧
      (RattleProcess d cfg).1 = 0 ∧
      (RattleProcess d cfg).2.1 = updatedStore d cfg v ∧
      o.vala = ((updatedStore d cfg v).buffer.length : ℤ) ∧
      ∀ j : Fin 4,
        o.rate j = (slopeIntersect (updatedStore d cfg v) (clampNumber d (cfg.numbers j))).1 *
            zero2oneQ cfg.rateScaleIn ∧
        o.eta j = ((cfg.thresholds j -
              (slopeIntersect (updatedStore d cfg v) (clampNumber d (cfg.numbers j))).2) /
            (slopeIntersect (updatedStore d cfg v) (clampNumber d (cfg.numbers j))).1) /
            zero2oneQ cfg.timeScaleIn := by
  have hlt : ¬ epicsSevInvalid ≤ cfg.severity := not_le.mpr hsev
  simp only [RattleProcess, if_neg hlt, hval]
  exact ⟨_, rfl, trivial, trivial, rfl, fun j => ⟨rfl, rfl⟩⟩

/-- Witness for C7 at the one-sample store and the benign cycle. -/
theorem outputs_formula_witness :
    baseCfg.severity < epicsSevInvalid ∧ baseCfg.value = DVal.finite 7 ∧
    (∃ o : Outputs, (RattleProcess oneSampleStore baseCfg).2.2 = some o ∧
      (RattleProcess oneSampleStore baseCfg).1 = 0 ∧
      (RattleProcess oneSampleStore baseCfg).2.1 = updatedStore oneSampleStore baseCfg 7 ∧
      o.vala = ((updatedStore oneSampleStore baseCfg 7).buffer.length : ℤ) ∧
      ∀ j : Fin 4,
        o.rate j = (slopeIntersect (updatedStore oneSampleStore baseCfg 7)
              (clampNumber oneSampleStore (baseCfg.numbers j))).1 *
            zero2oneQ baseCfg.rateScaleIn ∧
        o.eta j = ((baseCfg.thresholds j -
              (slopeIntersect (updatedStore oneSampleStore baseCfg 7)
                (clampNumber oneSampleStore (baseCfg.numbers j))).2) /
            (slopeIntersect (updatedStore oneSampleStore baseCfg 7)
              (clampNumber oneSampleStore (baseCfg.numbers j))).1) /
            zero2oneQ baseCfg.timeScaleIn) :=
  ⟨by decide, rfl, outputs_formula oneSampleStore baseCfg 7 (by decide) rfl⟩

/-! Claim C1: on noiseless collinear data with distinct timestamps the
least-squares fit recovers the exact slope and the exact value at the
newest sample's timestamp. -/

lemma sum_centered_sq (xs : List ℚ) (a : ℚ) :
    (xs.length : ℚ) * (a * a) - 2 * a * xs.sum + (xs.map (fun y => y * y)).sum =
      (xs.map (fun y => (a - y) * (a - y))).sum := by
  induction xs with
  | nil => simp
  | cons x xs ih =>
    simp only [List.length_cons, List.map_cons, List.sum_cons]
    push_cast
    linear_combination ih

lemma delta_list_nonneg (xs : List ℚ) :
    0 ≤ (xs.length : ℚ) * (xs.map (fun y => y * y)).sum - xs.sum * xs.sum := by
  induction xs with
  | nil => simp
  | cons x xs ih =>
    have hsq : 0 ≤ (xs.map (fun y => (x - y) * (x - y))).sum := by
      apply List.sum_nonneg
      intro z hz
      obtain ⟨y, hy, rfl⟩ := List.mem_map.mp hz
      exact mul_self_nonneg _
    have hc := sum_centered_sq xs x
    simp only [List.length_cons, List.map_cons, List.sum_cons]
    push_cast
    have expand : ((xs.length : ℚ) + 1) * (x * x + (xs.map (fun y => y * y)).sum) -
        (x + xs.sum) * (x + xs.sum) =
        ((xs.length : ℚ) * (xs.map (fun y => y * y)).sum - xs.sum * xs.sum) +
        (xs.map (fun y => (x - y) * (x - y))).sum := by linear_combination hc
    rw [expand]
    exact add_nonneg ih hsq

lemma delta_list_pos (xs : List ℚ) (a b : ℚ)
    (ha : a ∈ xs) (hb : b ∈ xs) (hab : a ≠ b) :
    0 < (xs.length : ℚ) * (xs.map (fun y => y * y)).sum - xs.sum * xs.sum := by
  induction xs with
  | nil => cases ha
  | cons x xs ih =>
    have hsq : 0 ≤ (xs.map (fun y => (x - y) * (x - y))).sum := by
      apply List.sum_nonneg
      intro z hz
      obtain ⟨y, hy, rfl⟩ := List.mem_map.mp hz
      exact mul_self_nonneg _
    have hc := sum_centered_sq xs x
    have hd0 := delta_list_nonneg xs
    simp only [List.length_cons, List.map_cons, List.sum_cons]
    push_cast
    have expand : ((xs.length : ℚ) + 1) * (x * x + (xs.map (fun y => y * y)).sum) -
        (x + xs.sum) * (x + xs.sum) =
        ((xs.length : ℚ) * (xs.map (fun y => y * y)).sum - xs.sum * xs.sum) +
        (xs.map (fun y => (x - y) * (x - y))).sum := by linear_combination hc
    rw [expand]
    rcases List.mem_cons.mp ha with rfl | ha2
    · rcases List.mem_cons.mp hb with rfl | hb2
      · exact absurd rfl hab
      · have hmem : (a - b) * (a - b) ∈ xs.map (fun y => (a - y) * (a - y)) :=
          List.mem_map_of_mem _ hb2
        have hle : (a - b) * (a - b) ≤ (xs.map (fun y => (a - y) * (a - y))).sum :=
          List.single_le_sum (fun z hz => by
            obtain ⟨y, hy, rfl⟩ := List.mem_map.mp hz
            exact mul_self_nonneg _) _ hmem
        have hpos : 0 < (a - b) * (a - b) := mul_self_pos.mpr (sub_ne_zero.mpr hab)
        exact add_pos_of_nonneg_of_pos hd0 (lt_of_lt_of_le hpos hle)
    · rcases List.mem_cons.mp hb with rfl | hb2
      · have hmem : (b - a) * (b - a) ∈ xs.map (fun y => (b - y) * (b - y)) :=
          List.mem_map_of_mem _ ha2
        have hle : (b - a) * (b - a) ≤ (xs.map (fun y => (b - y) * (b - y))).sum :=
          List.single_le_sum (fun z hz => by
            obtain ⟨y, hy, rfl⟩ := List.mem_map.mp hz
            exact mul_self_nonneg _) _ hmem
        have hpos : 0 < (b - a) * (b - a) :=
          mul_self_pos.mpr (sub_ne_zero.mpr (Ne.symm hab))
        exact add_pos_of_nonneg_of_pos hd0 (lt_of_lt_of_le hpos hle)
      · exact add_pos_of_pos_of_nonneg (ih ha2 hb2) hsq

lemma line_sums (m b t0 : ℚ) (w : List Sample)
    (hline : ∀ s ∈ w, s.value = m * (s.time - t0) + b) :
    ySum w = m * xSum w t0 + b * w.length ∧
    xySum w t0 = m * xxSum w t0 + b * xSum w t0 := by
  induction w with
  | nil => simp [ySum, xSum, xySum, xxSum]
  | cons s w ih =>
    have hs := hline s (List.mem_cons_self s w)
    have hw := ih (fun s2 hs2 => hline s2 (List.mem_cons_of_mem s hs2))
    simp only [ySum, xSum, xySum, xxSum, List.map_cons, List.sum_cons,
      List.length_cons] at hw ⊢
    push_cast
    constructor
    · linear_combination hs + hw.1
    · linear_combination (s.time - t0) * hs + hw.2

lemma olsDelta_pos_of_two_times (w : List Sample) (t0 : ℚ) (s1 s2 : Sample)
    (h1 : s1 ∈ w) (h2 : s2 ∈ w) (hne : s1.time ≠ s2.time) :
    0 < olsDelta w t0 := by
  have hx1 : s1.time - t0 ∈ w.map (fun s => s.time - t0) := List.mem_map_of_mem _ h1
  have hx2 : s2.time - t0 ∈ w.map (fun s => s.time - t0) := List.mem_map_of_mem _ h2
  have hxne : s1.time - t0 ≠ s2.time - t0 := by
    intro h
    exact hne (by linarith)
  have hpos := delta_list_pos (w.map (fun s => s.time - t0)) _ _ hx1 hx2 hxne
  have hlen : (w.map (fun s => s.time - t0)).length = w.length := List.length_map _ _
  have hmm : (w.map (fun s => s.time - t0)).map (fun y => y * y) =
      w.map (fun s => (s.time - t0) * (s.time - t0)) := by
    rw [List.map_map]
    rfl
  unfold olsDelta xSum xxSum
  rw [← hlen, ← hmm]
  exact hpos

lemma ols_exact (w : List Sample) (t0 m b : ℚ)
    (hline : ∀ s ∈ w, s.value = m * (s.time - t0) + b)
    (hdelta : olsDelta w t0 ≠ 0) :
    olsSlope w t0 = m ∧ olsIntersect w t0 = b := by
  obtain ⟨hy, hxy⟩ := line_sums m b t0 w hline
  constructor
  · unfold olsSlope
    rw [div_eq_iff hdelta]
    unfold olsDelta
    linear_combination (w.length : ℚ) * hxy - xSum w t0 * hy
  · unfold olsIntersect
    rw [div_eq_iff hdelta]
    unfold olsDelta
    linear_combination xxSum w t0 * hy - xSum w t0 * hxy

lemma exists_two_distinct_time (w : List Sample) (h2 : 2 ≤ w.length)
    (hdist : w.Pairwise (fun s1 s2 => s1.time ≠ s2.time)) :
    ∃ s1 ∈ w, ∃ s2 ∈ w, s1.time ≠ s2.time := by
  rcases w with _ | ⟨s1, _ | ⟨s2, rest⟩⟩
  · simp at h2
  · simp at h2
  · have hne := (List.pairwise_cons.mp hdist).1 s2 (List.mem_cons_self s2 rest)
    exact ⟨s1, List.mem_cons_self _ _, s2,
      List.mem_cons_of_mem _ (List.mem_cons_self _ _), hne⟩

/-- Claim C1: for every window size `n >= 2` and every store holding at
least `n` samples whose (timestamp, value) pairs lie exactly on one line
with slope `m` and value `b` at the newest sample's timestamp (pairwise
distinct timestamps, no noise), `slopeIntersect` returns slope `m` and
intersect `b`, the offsets being taken relative to the newest sample's
timestamp. -/
theorem fit_exact_on_line (d : RecordData) (n : ℤ) (m b : ℚ)
    (hn2 : 2 ≤ n) (hnlen : n ≤ (d.buffer.length : ℤ))
    (hdist : d.buffer.Pairwise (fun s1 s2 => s1.time ≠ s2.time))
    (hline : ∀ s ∈ d.buffer, s.value = m * (s.time - t0Of d) + b) :
    slopeIntersect d n = (m, b) := by
  have h1 : ¬ n < 1 := by omega
  have h2 : ¬ n < 2 := by omega
  have hsub : (windowOf d n).Sublist d.buffer := List.drop_sublist _ _
  have hw_line : ∀ s ∈ windowOf d n, s.value = m * (s.time - t0Of d) + b :=
    fun s hs => hline s (hsub.subset hs)
  have hw_dist : (windowOf d n).Pairwise (fun s1 s2 => s1.time ≠ s2.time) :=
    hdist.sublist hsub
  have hwlen : (windowOf d n).length = n.toNat := by
    have hfs : max ((d.buffer.length : ℤ) - n) 0 = (d.buffer.length : ℤ) - n :=
      max_eq_left (by omega)
    unfold windowOf
    rw [hfs, List.length_drop]
    omega
  have h2len : 2 ≤ (windowOf d n).length := by rw [hwlen]; omega
  obtain ⟨s1, hs1, s2, hs2, hne⟩ := exists_two_distinct_time _ h2len hw_dist
  have hdelta : olsDelta (windowOf d n) (t0Of d) ≠ 0 :=
    ne_of_gt (olsDelta_pos_of_two_times _ _ s1 s2 hs1 hs2 hne)
  obtain ⟨hsl, hint⟩ := ols_exact (windowOf d n) (t0Of d) m b hw_line hdelta
  unfold slopeIntersect
  rw [if_neg h1, if_neg h2, hsl, hint]

/-- Witness for C1 at the three collinear samples of `linStore` (value
2 * time + 2, so slope 2 and value 6 at the newest timestamp). -/
theorem fit_exact_on_line_witness :
    (2 : ℤ) ≤ 3 ∧ (3 : ℤ) ≤ (linStore.buffer.length : ℤ) ∧
    linStore.buffer.Pairwise (fun s1 s2 => s1.time ≠ s2.time) ∧
    (∀ s ∈ linStore.buffer, s.value = 2 * (s.time - t0Of linStore) + 6) ∧
    slopeIntersect linStore 3 = (2, 6) :=
  ⟨by norm_num, by norm_num [linStore], by decide,
    by
      have h : t0Of linStore = 2 := rfl
      rw [h]
      intro s hs
      fin_cases hs <;> norm_num,
    fit_exact_on_line linStore 3 2 6 (by norm_num) (by norm_num [linStore])
      (by decide)
      (by
        have h : t0Of linStore = 2 := rfl
        rw [h]
        intro s hs
        fin_cases hs <;> norm_num)⟩

end Rattle
